import Mathlib

/-!
Verification of `tools/generate_publications.py`: a shallow embedding of the
BibTeX → year-grouped-HTML generator, over `List Char` strings, together with
proofs settling the specification claims.

Modelling conventions:
* Python strings are `List Char` (`Str`); every Python string primitive used by
  the program (`strip`, `splitlines`, `startswith`, `endswith`, `lower`,
  `count`, `replace`, `isdigit`, `int(...)`, `"sep".join`) is embedded as an
  executable Lean function on that type.
* Character-class predicates (`\s`, `\w`, `\d`, `str.isdigit`, `str.lower`)
  are modelled on the ASCII fragment, extended with the Latin-1 superscript
  digits `¹ ² ³` for `str.isdigit` (these are characters on which Python's
  `str.isdigit` is `True` but `int(...)` raises `ValueError`, which matters
  for the error-handling claim).  Inputs exercising other non-ASCII
  digit/letter classes are outside the modelled fragment.
* The three regexes of the program (`_field_re`, the header pattern and the
  year-fallback search) are embedded operationally, following the leftmost
  backtracking semantics of CPython's `re` on those concrete patterns.
* `list.sort(key=f)` / `sorted(xs, key=f)` are embedded as: compute all keys
  first (CPython decorates every element before comparing — this is where a
  `ValueError` from `int` escapes), then stable-sort by the total preorder on
  keys.  `List.insertionSort` with the reflexive key order is such a stable
  sort.
* An uncaught Python exception is modelled as `none` from the pipeline;
  `runMain` turns it into exit status 1 with a diagnostic on stderr.
-/

namespace GenPubs

/-- Python strings, modelled as lists of unicode scalar values. -/
abbrev Str := List Char

/-- Whitespace class of Python's `str.strip()` / regex `\s` (ASCII fragment). -/
def isPySpace (c : Char) : Bool :=
  c == ' ' || c == '\t' || c == '\n' || c == '\r' || c == '\x0b' || c == '\x0c'

/-- Word-character class of regex `\w` (ASCII fragment): letters, digits, underscore. -/
def wordChar (c : Char) : Bool :=
  c.isAlpha || c.isDigit || c == '_'

/-- Python `str.strip()` with no argument: drop whitespace from both ends. -/
def pyStrip (s : Str) : Str :=
  ((s.dropWhile isPySpace).reverse.dropWhile isPySpace).reverse

/-- Python `s.startswith(pat)`. -/
def pyStartswith (s pat : Str) : Bool :=
  match s, pat with
  | _, [] => true
  | [], _ :: _ => false
  | c :: s', p :: pat' => c == p && pyStartswith s' pat'

/-- Python `s.endswith(pat)`. -/
def pyEndswith (s pat : Str) : Bool :=
  pyStartswith s.reverse pat.reverse

/-- Python `s.lower()` (ASCII fragment). -/
def pyLower (s : Str) : Str := s.map Char.toLower

/-- Python `s.count(c)` for a single-character needle. -/
def pyCountChar (s : Str) (c : Char) : Nat := s.countP (· == c)

/-- Python `str.splitlines()` restricted to the `\n`, `\r\n` and `\r`
line terminators: helper consuming the rest of the text after a line start. -/
def splitlinesGo : Str → Str → List Str
  | cur, [] => [cur.reverse]
  | cur, '\r' :: '\n' :: rest =>
    cur.reverse :: (if rest.isEmpty then [] else splitlinesGo [] rest)
  | cur, '\r' :: rest =>
    cur.reverse :: (if rest.isEmpty then [] else splitlinesGo [] rest)
  | cur, '\n' :: rest =>
    cur.reverse :: (if rest.isEmpty then [] else splitlinesGo [] rest)
  | cur, c :: rest => splitlinesGo (c :: cur) rest

/-- Python `str.splitlines()` (on the terminators above): the empty string has
no lines, a trailing terminator does not open a final empty line. -/
def pySplitlines (s : Str) : List Str :=
  if s.isEmpty then [] else splitlinesGo [] s

/-- Python `"\n".join(lines)`. -/
def joinNL (lines : List Str) : Str :=
  List.intercalate ['\n'] lines

/-- Python `s.replace(pat, rep)` for a non-empty pattern: scan left to right,
replacing non-overlapping occurrences.  The `fuel` argument makes the
recursion structural (the scan advances by at least one character per step,
so `s.length` fuel is always enough). -/
def pyReplaceF (pat rep : Str) : Nat → Str → Str
  | _, [] => []
  | 0, l => l
  | fuel + 1, c :: rest =>
    if pat ≠ [] ∧ pyStartswith (c :: rest) pat then
      rep ++ pyReplaceF pat rep fuel ((c :: rest).drop pat.length)
    else
      c :: pyReplaceF pat rep fuel rest

/-- Python `s.replace(pat, rep)` for a non-empty pattern. -/
def pyReplace (pat rep s : Str) : Str := pyReplaceF pat rep s.length s

/-! ### Entry splitter (`split_entries`) -/

/-- Loop state of `split_entries`: accumulated entries, current line buffer,
running brace depth, and whether we are inside an entry. -/
structure SplitSt where
  entries : List Str
  buff : List Str
  depth : Int
  inEntry : Bool

/-- One iteration of the `for line in bibtex.splitlines()` loop of
`split_entries`. -/
def splitStep (st : SplitSt) (line : Str) : SplitSt :=
  let st1 : SplitSt :=
    if pyStartswith (pyStrip line) ['@'] then
      { entries := st.entries ++ (if st.buff.isEmpty then [] else [pyStrip (joinNL st.buff)])
        buff := []
        depth := 0
        inEntry := true }
    else st
  if st1.inEntry then
    let buff2 := st1.buff ++ [line]
    let depth2 := st1.depth + (pyCountChar line '{' : Int) - (pyCountChar line '}' : Int)
    if depth2 ≤ 0 && pyEndswith (pyStrip line) ['}'] then
      { entries := st1.entries ++ [pyStrip (joinNL buff2)]
        buff := []
        depth := depth2
        inEntry := false }
    else
      { entries := st1.entries, buff := buff2, depth := depth2, inEntry := st1.inEntry }
  else st1

/-- Embedding of `split_entries`: run the loop, flush a trailing buffer, keep
only chunks that literally start with `@`. -/
def split_entries (bibtex : Str) : List Str :=
  let fin := (pySplitlines bibtex).foldl splitStep ⟨[], [], 0, false⟩
  let entries := fin.entries ++ (if fin.buff.isEmpty then [] else [pyStrip (joinNL fin.buff)])
  entries.filter (fun e => pyStartswith e ['@'])

/-! ### Value cleaning (`clean_value`) -/

mutual

/-- Embedding of `re.sub(r"\s+", " ", v)`: collapse each maximal whitespace
run to a single space. -/
def collapseWs : Str → Str
  | [] => []
  | c :: rest =>
    if isPySpace c then ' ' :: collapseSkip rest
    else c :: collapseWs rest

/-- State of `collapseWs` inside a whitespace run whose space has been
emitted: drop further whitespace, then continue. -/
def collapseSkip : Str → Str
  | [] => []
  | c :: rest =>
    if isPySpace c then collapseSkip rest
    else c :: collapseWs rest

end

/-- Embedding of `clean_value`: strip, remove one level of surrounding braces
then quotes, collapse whitespace, strip again, delete remaining braces. -/
def clean_value (v : Str) : Str :=
  let v1 := pyStrip v
  let v2 := if pyStartswith v1 ['{'] && pyEndswith v1 ['}'] then (v1.drop 1).dropLast else v1
  let v3 := if pyStartswith v2 ['"'] && pyEndswith v2 ['"'] then (v2.drop 1).dropLast else v2
  let v4 := pyStrip (collapseWs v3)
  v4.filter (fun c => !(c == '{' || c == '}'))

/-! ### Field regex (`_field_re`)

`re.compile(r'^\s*([a-zA-Z]+)\s*=\s*(.+?)\s*,?\s*$', re.MULTILINE).findall`,
embedded operationally.  With `re.M`, `^` holds at offset 0 and after each
`'\n'`, `$` holds at the end and before each `'\n'`, `\s` may cross newlines,
and `.` never matches `'\n'`.  The leading `\s*`, the name run, and the `\s*`
before `=` are deterministic because `\s`, `[a-zA-Z]` and `=` are pairwise
disjoint character classes; backtracking matters only in the greedy `\s*`
after `=`, the lazy `(.+?)`, and the trailing `\s*,?\s*$`, which are embedded
in the engine's backtracking order. -/

/-- Length of the maximal whitespace run at the head of a suffix. -/
def wsRun (l : Str) : Nat := (l.takeWhile isPySpace).length

/-- Whether offset `k` into suffix `l` is a `$` position (end of text or just
before a `'\n'`). -/
def dollarAt (l : Str) (k : Nat) : Bool :=
  match l.drop k with
  | [] => true
  | c :: _ => c == '\n'

/-- Largest offset `j ≤ k` into `l` that is a `$` position (the greedy
trailing `\s*` backtracks from the longest run downwards). -/
def bestDollar (l : Str) : Nat → Option Nat
  | 0 => if dollarAt l 0 then some 0 else none
  | k + 1 => if dollarAt l (k + 1) then some (k + 1) else bestDollar l k

/-- Match of the trailing `\s*,?\s*$` against suffix `t`, returning the number
of characters consumed up to the reported match end.  The greedy first `\s*`
takes the maximal run; the greedy `,?` branch (comma present) is tried before
the empty one. -/
def tailMatch (t : Str) : Option Nat :=
  let w1 := wsRun t
  let commaBranch : Option Nat :=
    match t.drop w1 with
    | ',' :: rest2 => (bestDollar rest2 (wsRun rest2)).map (fun j => w1 + 1 + j)
    | _ => none
  match commaBranch with
  | some n => some n
  | none => bestDollar t w1

/-- Lazy `(.+?)` followed by the trailing pattern, at suffix `v0`: try value
lengths `1, 2, …` (never across `'\n'`) and return the first whose remainder
matches, with the value and the total consumed length. -/
def valueFrom (v0 : Str) : Option (Str × Nat) :=
  let maxL := (v0.takeWhile (fun c => !(c == '\n'))).length
  (List.range' 1 maxL).findSome? (fun L =>
    (tailMatch (v0.drop L)).map (fun j => (v0.take L, L + j)))

/-- Greedy `\s*` after `=` followed by the value search: whitespace widths are
tried from the maximal run downwards. -/
def valueSearch (u : Str) : Option (Str × Nat) :=
  (List.range (wsRun u + 1)).reverse.findSome? (fun w3 =>
    (valueFrom (u.drop w3)).map (fun vn => (vn.1, w3 + vn.2)))

/-- Attempt of the whole field pattern at a `^` position whose suffix is `l`,
returning the two captured groups and the consumed length. -/
def fieldMatchAt (l : Str) : Option (Str × Str × Nat) :=
  let w := wsRun l
  let l1 := l.drop w
  let name := l1.takeWhile Char.isAlpha
  if name.isEmpty then none
  else
    let l2 := l1.drop name.length
    let w2 := wsRun l2
    match l2.drop w2 with
    | '=' :: u =>
      (valueSearch u).map (fun vn => (name, vn.1, w + name.length + w2 + 1 + vn.2))
    | _ => none

/-- Scan of `findall`: try every position left to right, matching only at `^`
positions, resuming after the end of each match.  Fuel bounds the scan; the
position strictly increases every step, so `s.length + 1` fuel is exact. -/
def findallAux (s : Str) : Nat → Nat → List (Str × Str)
  | 0, _ => []
  | fuel + 1, pos =>
    if s.length ≤ pos then []
    else
      let lineStart : Bool :=
        match pos with
        | 0 => true
        | j + 1 => match s.drop j with
          | '\n' :: _ => true
          | _ => false
      if lineStart then
        match fieldMatchAt (s.drop pos) with
        | some (name, v, consumed) => (name, v) :: findallAux s fuel (pos + consumed)
        | none => findallAux s fuel (pos + 1)
      else findallAux s fuel (pos + 1)

/-- Embedding of `_field_re.findall(entry)`. -/
def findFields (s : Str) : List (Str × Str) :=
  findallAux s (s.length + 1) 0

/-! ### Entry parser (`parse_entry`) -/

/-- Field dictionary built by `parse_entry`'s loop (`fields[k.lower()] =
clean_value(v)`), as the association list of lowered names and cleaned
values in match order; a later pair for the same name overrides an earlier
one, so lookups read the reversed list. -/
def fieldsOf (entry : Str) : List (Str × Str) :=
  (findFields entry).map (fun kv => (pyLower kv.1, clean_value kv.2))

/-- Python `fields.get(k)`: the value of the last occurrence of `k`, if any. -/
def fieldGet (entry : Str) (k : Str) : Option Str :=
  List.lookup k (fieldsOf entry).reverse

/-- Python `fields.get(k, default)`. -/
def fieldGetD (entry : Str) (k : Str) (d : Str) : Str :=
  (fieldGet entry k).getD d

/-- Embedding of `re.match(r'^@(\w+)\s*{\s*([^,]+)\s*,', header.strip())`:
type and citation key of a well-formed header, `none` otherwise.  The greedy
`\w+` and `[^,]+` runs and the `\s*` runs are deterministic because the
classes are disjoint from what must follow. -/
def headerMatch (header : Str) : Option (Str × Str) :=
  match pyStrip header with
  | '@' :: r =>
    let ty := r.takeWhile wordChar
    if ty.isEmpty then none
    else
      let r1 := r.drop ty.length
      match r1.drop (wsRun r1) with
      | '{' :: r3 =>
        let r4 := r3.drop (wsRun r3)
        let key := r4.takeWhile (fun c => !(c == ','))
        if key.isEmpty then none
        else
          match r4.drop key.length with
          | ',' :: _ => some (ty, key)
          | _ => none
      | _ => none
  | _ => none

/-- Match of `(19\d{2}|20\d{2})\b` at the head of suffix `l` (the trailing
word boundary is checked against the following character). -/
def yearHeadMatch (l : Str) : Option Str :=
  match l with
  | a :: b :: c :: d :: rest =>
    if ((a == '1' && b == '9') || (a == '2' && b == '0')) && c.isDigit && d.isDigit
        && (match rest with | [] => true | e :: _ => !wordChar e) then
      some [a, b, c, d]
    else none
  | _ => none

/-- Match of `\b(19\d{2}|20\d{2})\b` at a position whose previous character is
`prev` (`none` at the start of the text). -/
def tryYearAt (prev : Option Char) (l : Str) : Option Str :=
  if (match prev with | none => true | some p => !wordChar p) then yearHeadMatch l
  else none

/-- Leftmost-match scan of `re.search(r"\b(19\d{2}|20\d{2})\b", entry)`. -/
def searchYearAux (prev : Option Char) : Str → Option Str
  | [] => none
  | c :: rest =>
    match tryYearAt prev (c :: rest) with
    | some y => some y
    | none => searchYearAux (some c) rest

/-- Embedding of the year-fallback `re.search` over the whole raw entry. -/
def searchYear (entry : Str) : Option Str := searchYearAux none entry

/-- Publication Record: the dictionary returned by `parse_entry`. -/
structure Pub where
  ty : Str
  key : Str
  year : Str
  title : Str
  author : Str
  venue : Str
  url : Str
  extra : Str
deriving Repr, DecidableEq, Inhabited

/-- Python `a or b` on strings: `b` when `a` is empty (or an absent field). -/
def pyOr (a b : Str) : Str := if a.isEmpty then b else a

/-- Embedding of `parse_entry`. -/
def parse_entry (entry : Str) : Pub :=
  let header := entry.takeWhile (fun c => !(c == '\n'))
  let hm := headerMatch header
  let yearF := fieldGetD entry "year".toList []
  let year :=
    if yearF.isEmpty then
      match searchYear entry with
      | some y => y
      | none => "Unknown".toList
    else yearF
  let venue := pyOr (fieldGetD entry "journal".toList [])
    (pyOr (fieldGetD entry "booktitle".toList []) (fieldGetD entry "publisher".toList []))
  let url0 := fieldGetD entry "url".toList []
  let doi := fieldGetD entry "doi".toList []
  let url := if url0.isEmpty && !doi.isEmpty then "https://doi.org/".toList ++ doi else url0
  let volume := fieldGetD entry "volume".toList []
  let number := fieldGetD entry "number".toList []
  let pages := fieldGetD entry "pages".toList []
  let extraParts :=
    (if venue.isEmpty then [] else [venue]) ++
    (if volume.isEmpty then [] else ["vol. ".toList ++ volume]) ++
    (if number.isEmpty then [] else ["no. ".toList ++ number]) ++
    (if pages.isEmpty then [] else ["pp. ".toList ++ pages])
  { ty := match hm with | some tk => pyLower tk.1 | none => "misc".toList
    key := match hm with | some tk => tk.2 | none => []
    year := year
    title := fieldGetD entry "title".toList "Untitled".toList
    author := pyReplace " and ".toList ", ".toList (fieldGetD entry "author".toList [])
    venue := venue
    url := url
    extra := List.intercalate ", ".toList extraParts }

/-! ### Sorter / grouper -/

/-- Python `str.isdigit` on one character: decimal digits plus any character
with `Numeric_Type=Digit`; of the latter this embedding carries the Latin-1
superscripts `¹ ² ³` (code points 185, 178, 179). -/
def pyIsDigitChar (c : Char) : Bool :=
  c.isDigit || c == Char.ofNat 185 || c == Char.ofNat 178 || c == Char.ofNat 179

/-- Python `s.isdigit()`: non-empty and all characters digit-class. -/
def pyStrIsDigit (s : Str) : Bool := !s.isEmpty && s.all pyIsDigitChar

/-- Numeric value of a decimal-digit string. -/
def strNatVal (s : Str) : Nat := s.foldl (fun a c => a * 10 + (c.toNat - 48)) 0

/-- Python `int(s)` for a string that passed `s.isdigit()`: succeeds exactly
when every character is a decimal digit (`Numeric_Type=Decimal`); on the
superscript digits it raises `ValueError`, modelled as `none`. -/
def pyInt? (s : Str) : Option Int :=
  if !s.isEmpty && s.all Char.isDigit then some (strNatVal s : Int) else none

/-- Python string `≤` (lexicographic by code point). -/
def strLe : Str → Str → Bool
  | [], _ => true
  | _ :: _, [] => false
  | a :: s, b :: t =>
    if a.toNat < b.toNat then true
    else if b.toNat < a.toNat then false
    else strLe s t

/-- Python tuple `≤` on `(int, str)` sort keys. -/
def keyLe (x y : Int × Str) : Bool :=
  decide (x.1 < y.1) || (decide (x.1 = y.1) && strLe x.2 y.2)

/-- Key of `sort_key`: `(-ynum, title.lower())` with `ynum = int(year)` when
the year is digit-class (possibly raising, hence `Option`) and `-1`
otherwise. -/
def sort_key (p : Pub) : Option (Int × Str) :=
  if pyStrIsDigit p.year then (pyInt? p.year).map (fun n => (-n, pyLower p.title))
  else some (-(-1 : Int), pyLower p.title)

/-- Comparison relation on decorated records used for the stable sort. -/
def pubRel (a b : (Int × Str) × Pub) : Prop := keyLe a.1 b.1 = true

instance : DecidableRel pubRel := fun a b => instDecidableEqBool _ _

/-- Embedding of `pubs.sort(key=sort_key)`: CPython first computes every key
(where `int` may raise), then stable-sorts by the total preorder on keys;
`insertionSort` by the reflexive key order is that stable sort. -/
def sortPubs? (pubs : List Pub) : Option (List Pub) :=
  (pubs.mapM (fun p => (sort_key p).map (fun k => (k, p)))).map
    (fun dec => (List.insertionSort pubRel dec).map Prod.snd)

/-- Keys of a Python dict built by insertion, fuelled structurally (each step
strictly shrinks the list, so its length is enough fuel). -/
def pyKeysF : Nat → List Str → List Str
  | _, [] => []
  | 0, l => l
  | fuel + 1, y :: rest => y :: pyKeysF fuel (rest.filter (fun z => !(z == y)))

/-- Keys of a Python dict built by insertion: first-occurrence order, no
duplicates. -/
def pyKeys (l : List Str) : List Str := pyKeysF l.length l

/-- Grouping of `main`: `grouped.setdefault(p["year"], []).append(p)` makes
the bucket of `y` the subsequence of records whose year is `y`. -/
def bucket (ps : List Pub) (y : Str) : List Pub :=
  ps.filter (fun p => p.year == y)

/-- Encounter-ordered distinct years of the (sorted) record list: the key
order of the `grouped` dict. -/
def yearsEncounter (ps : List Pub) : List Str := pyKeys (ps.map Pub.year)

/-- Key of the year-bucket sort: `(0, -int(y))` for digit-class years (where
`int` may raise) and `(1, 0)` otherwise. -/
def yearKey? (y : Str) : Option (Nat × Int) :=
  if pyStrIsDigit y then (pyInt? y).map (fun n => (0, -n)) else some (1, 0)

/-- Python tuple `≤` on `(int, int)` year-bucket keys. -/
def ykLe (a b : Nat × Int) : Bool :=
  decide (a.1 < b.1) || (decide (a.1 = b.1) && decide (a.2 ≤ b.2))

/-- Comparison relation on decorated years. -/
def yearRel (a b : (Nat × Int) × Str) : Prop := ykLe a.1 b.1 = true

instance : DecidableRel yearRel := fun a b => instDecidableEqBool _ _

/-- Embedding of `sorted(grouped.keys(), key=...)` (decorate, then stable
sort). -/
def sortYears? (ys : List Str) : Option (List Str) :=
  (ys.mapM (fun y => (yearKey? y).map (fun k => (k, y)))).map
    (fun dec => (List.insertionSort yearRel dec).map Prod.snd)

/-! ### Renderer -/

/-- Embedding of `html.escape(s)` (with its default `quote=True`): the five
sequential `str.replace` calls, in source order. -/
def escape (s : Str) : Str :=
  let s1 := pyReplace ['&'] "&amp;".toList s
  let s2 := pyReplace ['<'] "&lt;".toList s1
  let s3 := pyReplace ['>'] "&gt;".toList s2
  let s4 := pyReplace ['"'] "&quot;".toList s3
  pyReplace ['\''] "&#x27;".toList s4

/-- Author-clause separator as it literally appears in the source file: the
UTF-8 bytes of an em dash were double-encoded, so the Python string literal
is the three characters `â` (U+00E2), `€` (U+20AC), `”` (U+201D) — not an
em dash. -/
def emDashMojibake : Str := [Char.ofNat 226, Char.ofNat 8364, Char.ofNat 8221]

/-- Embedding of `format_li`. -/
def format_li (pub : Pub) : Str :=
  let title := escape pub.title
  let author := if pub.author.isEmpty then [] else escape pub.author
  let extra := if pub.extra.isEmpty then [] else escape pub.extra
  let t :=
    if !pub.url.isEmpty then
      "<a href=\"".toList ++ escape pub.url ++
        "\" target=\"_blank\" rel=\"noopener noreferrer\"><strong>".toList ++
        title ++ "</strong></a>".toList
    else "<strong>".toList ++ title ++ "</strong>".toList
  let parts :=
    [t] ++
    (if author.isEmpty then [] else [emDashMojibake ++ " ".toList ++ author ++ ".".toList]) ++
    (if extra.isEmpty then [] else ["<em>".toList ++ extra ++ "</em>.".toList])
  List.intercalate " ".toList parts

/-- One `<section>` block of the output, including the newline each `print`
appends (the final `print("</section>\n")` emits two). -/
def renderSection (first : Bool) (y : Str) (ps : List Pub) : Str :=
  "<section class=\"card\"".toList ++
    (if first then [] else " style=\"margin-top:14px;\"".toList) ++ ">".toList ++ ['\n'] ++
  "  <h2>".toList ++ escape y ++ "</h2>".toList ++ ['\n'] ++
  "  <ul class=\"pub-list\">".toList ++ ['\n'] ++
  (ps.map (fun p => "    <li>".toList ++ format_li p ++ "</li>".toList ++ ['\n'])).flatten ++
  "  </ul>".toList ++ ['\n'] ++
  "</section>".toList ++ ['\n', '\n']

/-! ### Main -/

/-- Parsed records of an input, in entry order. -/
def pubsOf (bib : Str) : List Pub := (split_entries bib).map parse_entry

/-- Records after `pubs.sort(key=sort_key)`; `none` when a key raised. -/
def sortedPubsOf (bib : Str) : Option (List Pub) := sortPubs? (pubsOf bib)

/-- Year buckets of the output, rendered in order. -/
def renderAll (ps : List Pub) (years : List Str) : Str :=
  (years.enum.map (fun iy => renderSection (iy.1 == 0) iy.2 (bucket ps iy.2))).flatten

/-- Standard output of a successful run of `main` on file content `bib`;
`none` models an uncaught `ValueError` escaping from a sort key. -/
def pipeline? (bib : Str) : Option Str := do
  let ps ← sortedPubsOf bib
  let ys ← sortYears? (yearsEncounter ps)
  pure (renderAll ps ys)

/-- Usage message printed to stderr when the positional argument is missing. -/
def usageMsg : Str :=
  ("Usage: python tools/generate_publications.py publications.bib > publications_generated.html").toList ++ ['\n']

/-- Embedding of `main` for a run in which the file read succeeds: `args` is
`sys.argv[1:]` and `bib` the file's text; result is (exit status, stdout,
stderr).  The text of an uncaught-exception traceback is abstracted to a
fixed diagnostic marker. -/
def runMain (args : List Str) (bib : Str) : Nat × Str × Str :=
  match args with
  | [] => (1, [], usageMsg)
  | _ :: _ =>
    match pipeline? bib with
    | none => (1, [], ("Traceback (most recent call last): ValueError").toList)
    | some out => (0, out, [])

/-! ### Specification-side definitions

These follow the words of the specification (not the code) and are used to
state claims about the year fallback and the rendered HTML. -/

/-- Claim-side predicate: offset `i` of `s` carries a 4-digit substring whose
numeric value lies between 1900 and 2099 (no word-boundary requirement — the
claim's wording). -/
def plainYearAt (s : Str) (i : Nat) : Bool :=
  decide (i + 4 ≤ s.length) && ((s.drop i).take 4).all Char.isDigit
    && decide (1900 ≤ strNatVal ((s.drop i).take 4))
    && decide (strNatVal ((s.drop i).take 4) ≤ 2099)

/-- Claim-side function: the first 4-digit in-range substring of `s`, taken
at the smallest offset at which one occurs. -/
def firstPlainYear (s : Str) : Option Str :=
  (((List.range s.length).filter (plainYearAt s)).head?).map (fun i => (s.drop i).take 4)

/-- Spec-side start-of-match word boundary: the character before offset `i`,
if any, is not a word character. -/
def prevNonWord (s : Str) (i : Nat) : Bool :=
  match i with
  | 0 => true
  | j + 1 => match (s.drop j).head? with | some c => !wordChar c | none => true

/-- Spec-side end-of-match word boundary: the character at offset `i`, if
any, is not a word character. -/
def nextNonWord (s : Str) (i : Nat) : Bool :=
  match (s.drop i).head? with | some c => !wordChar c | none => true

/-- Spec-side predicate for the amended year-fallback claim: a 4-digit
in-range substring at offset `i` that is word-boundary-delimited on both
sides. -/
def boundedYearAt (s : Str) (i : Nat) : Bool :=
  plainYearAt s i && prevNonWord s i && nextNonWord s (i + 4)

/-- Substring containment (for stating what the rendered HTML does and does
not contain). -/
def containsSub (s pat : Str) : Bool :=
  if pyStartswith s pat then true
  else
    match s with
    | [] => false
    | _ :: rest => containsSub rest pat

/-- Per-character table of `html.escape`: what each character contributes to
the escaped string. -/
def escChar (c : Char) : Str :=
  if c == '&' then "&amp;".toList
  else if c == '<' then "&lt;".toList
  else if c == '>' then "&gt;".toList
  else if c == '"' then "&quot;".toList
  else if c == '\'' then "&#x27;".toList
  else [c]

/-- No raw `<`, `>` or `"` anywhere in a string. -/
def noLtGtQuot (s : Str) : Bool :=
  s.all (fun c => !(c == '<' || c == '>' || c == '"'))

/-- Every `&` in the string starts one of the five entities `html.escape`
emits (so no `&` from the original text survives unescaped). -/
def ampEntityOk : Str → Bool
  | [] => true
  | c :: rest =>
    (if c == '&' then
      pyStartswith rest "amp;".toList || pyStartswith rest "lt;".toList ||
      pyStartswith rest "gt;".toList || pyStartswith rest "quot;".toList ||
      pyStartswith rest "#x27;".toList
    else true) && ampEntityOk rest

/-- Claim-side template of a rendered list item: `format_li` with the four
escaped pieces handed in already-escaped (the template itself escapes
nothing). -/
def liTemplate (pub : Pub) (et ea ee eu : Str) : Str :=
  let author := if pub.author.isEmpty then [] else ea
  let extra := if pub.extra.isEmpty then [] else ee
  let t :=
    if !pub.url.isEmpty then
      "<a href=\"".toList ++ eu ++
        "\" target=\"_blank\" rel=\"noopener noreferrer\"><strong>".toList ++
        et ++ "</strong></a>".toList
    else "<strong>".toList ++ et ++ "</strong>".toList
  let parts :=
    [t] ++
    (if author.isEmpty then [] else [emDashMojibake ++ " ".toList ++ author ++ ".".toList]) ++
    (if extra.isEmpty then [] else ["<em>".toList ++ extra ++ "</em>.".toList])
  List.intercalate " ".toList parts

/-! ### Helper lemmas: characters and digit arithmetic -/

theorem char_toNat_inj {a b : Char} (h : a.toNat = b.toNat) : a = b := by
  have ha := Char.ofNat_toNat a
  rw [h, Char.ofNat_toNat] at ha
  exact ha.symm

theorem isDigit_toNat {c : Char} : c.isDigit = true ↔ 48 ≤ c.toNat ∧ c.toNat ≤ 57 := by
  simp [Char.isDigit, Char.le_def, UInt32.le_def, BitVec.le_def, Char.toNat, UInt32.toNat]

theorem strNatVal_four (a b c d : Char) :
    strNatVal [a, b, c, d] =
      (((a.toNat - 48) * 10 + (b.toNat - 48)) * 10 + (c.toNat - 48)) * 10 + (d.toNat - 48) := by
  simp [strNatVal, List.foldl]

/-- Digit-arithmetic bridge: on four digit characters, matching `19\d\d` or
`20\d\d` is the same as having numeric value between 1900 and 2099. -/
theorem year_head_bridge (a b c d : Char)
    (ha : a.isDigit = true) (hb : b.isDigit = true)
    (hc : c.isDigit = true) (hd : d.isDigit = true) :
    ((a == '1' && b == '9') || (a == '2' && b == '0')) = true ↔
      1900 ≤ strNatVal [a, b, c, d] ∧ strNatVal [a, b, c, d] ≤ 2099 := by
  have hra := isDigit_toNat.mp ha
  have hrb := isDigit_toNat.mp hb
  have hrc := isDigit_toNat.mp hc
  have hrd := isDigit_toNat.mp hd
  rw [strNatVal_four]
  constructor
  · intro h
    rcases Bool.or_eq_true_iff.mp h with h1 | h2
    · have h1a : a = '1' := by simpa using (Bool.and_eq_true_iff.mp h1).1
      have h1b : b = '9' := by simpa using (Bool.and_eq_true_iff.mp h1).2
      subst h1a; subst h1b
      rw [show ('1'.toNat) = 49 from rfl, show ('9'.toNat) = 57 from rfl]
      omega
    · have h2a : a = '2' := by simpa using (Bool.and_eq_true_iff.mp h2).1
      have h2b : b = '0' := by simpa using (Bool.and_eq_true_iff.mp h2).2
      subst h2a; subst h2b
      rw [show ('2'.toNat) = 50 from rfl, show ('0'.toNat) = 48 from rfl]
      omega
  · intro h
    have : (a.toNat = 49 ∧ b.toNat = 57) ∨ (a.toNat = 50 ∧ b.toNat = 48) := by omega
    rcases this with ⟨h1, h2⟩ | ⟨h1, h2⟩
    · have : a = '1' := char_toNat_inj h1
      have : b = '9' := char_toNat_inj h2
      subst_vars; decide
    · have : a = '2' := char_toNat_inj h1
      have : b = '0' := char_toNat_inj h2
      subst_vars; decide

/-! ### Year-search correctness -/

/-- Character just before offset `i`, if any (the `prev` argument the scan of
`searchYearAux` carries at offset `i`). -/
def prevCharOpt (s : Str) : Nat → Option Char
  | 0 => none
  | j + 1 => (s.drop j).head?

theorem prev_guard_eq (s : Str) (i : Nat) :
    (match prevCharOpt s i with | none => true | some p => !wordChar p) = prevNonWord s i := by
  cases i with
  | zero => rfl
  | succ j =>
    simp only [prevCharOpt, prevNonWord]
    cases (s.drop j).head? <;> rfl

theorem digits_of_year_pattern {a b : Char}
    (h : ((a == '1' && b == '9') || (a == '2' && b == '0')) = true) :
    a.isDigit = true ∧ b.isDigit = true := by
  rcases Bool.or_eq_true_iff.mp h with h1 | h1
  · have ha : a = '1' := by simpa using (Bool.and_eq_true_iff.mp h1).1
    have hb : b = '9' := by simpa using (Bool.and_eq_true_iff.mp h1).2
    subst ha; subst hb; exact ⟨rfl, rfl⟩
  · have ha : a = '2' := by simpa using (Bool.and_eq_true_iff.mp h1).1
    have hb : b = '0' := by simpa using (Bool.and_eq_true_iff.mp h1).2
    subst ha; subst hb; exact ⟨rfl, rfl⟩

/-- Core condition of the year pattern, rephrased through the numeric
range. -/
theorem year_cond_iff (a b c d : Char) :
    ((a == '1' && b == '9' || a == '2' && b == '0') && c.isDigit && d.isDigit) = true ↔
      (a.isDigit && b.isDigit && c.isDigit && d.isDigit
        && decide (1900 ≤ strNatVal [a, b, c, d])
        && decide (strNatVal [a, b, c, d] ≤ 2099)) = true := by
  constructor
  · intro h
    have hd := (Bool.and_eq_true_iff.mp h).2
    have hpc := (Bool.and_eq_true_iff.mp h).1
    have hpat := (Bool.and_eq_true_iff.mp hpc).1
    have hc := (Bool.and_eq_true_iff.mp hpc).2
    obtain ⟨ha, hb⟩ := digits_of_year_pattern hpat
    have hrange := (year_head_bridge a b c d ha hb hc hd).mp hpat
    simp [ha, hb, hc, hd, hrange.1, hrange.2]
  · intro h
    simp only [Bool.and_eq_true_iff, decide_eq_true_eq] at h
    obtain ⟨⟨⟨⟨⟨ha, hb⟩, hc⟩, hd⟩, hr1⟩, hr2⟩ := h
    have hpat := (year_head_bridge a b c d ha hb hc hd).mpr ⟨hr1, hr2⟩
    simp [hpat, hc, hd]

/-- Head match of the year pattern, rephrased through the numeric range. -/
theorem yearHeadMatch_cons (a b c d : Char) (rest : Str) :
    yearHeadMatch (a :: b :: c :: d :: rest) =
      if (a.isDigit && b.isDigit && c.isDigit && d.isDigit
          && decide (1900 ≤ strNatVal [a, b, c, d])
          && decide (strNatVal [a, b, c, d] ≤ 2099)
          && (match rest with | [] => true | e :: _ => !wordChar e)) = true
      then some [a, b, c, d] else none := by
  unfold yearHeadMatch
  cases rest with
  | nil =>
    simp only [Bool.and_true]
    exact if_congr (year_cond_iff a b c d) rfl rfl
  | cons e rest' =>
    cases hw : wordChar e with
    | true => simp [hw]
    | false =>
      simp only [hw, Bool.not_false, Bool.and_true]
      exact if_congr (year_cond_iff a b c d) rfl rfl

/-- The regex match attempt at offset `i` succeeds exactly on the spec-side
boundary predicate, and returns the 4-character slice at `i`. -/
theorem tryYearAt_eq (s : Str) (i : Nat) :
    tryYearAt (prevCharOpt s i) (s.drop i) =
      if boundedYearAt s i = true then some ((s.drop i).take 4) else none := by
  have hlen : (s.drop i).length = s.length - i := List.length_drop ..
  unfold tryYearAt
  rw [prev_guard_eq]
  cases hgd : prevNonWord s i with
  | false =>
    simp [boundedYearAt, hgd]
  | true =>
    simp only [if_true]
    cases hl : s.drop i with
    | nil =>
      have : ¬(i + 4 ≤ s.length) := by
        rw [hl] at hlen; simp at hlen; omega
      simp [yearHeadMatch, boundedYearAt, plainYearAt, this]
    | cons a l1 =>
      cases hl1 : l1 with
      | nil =>
        have : ¬(i + 4 ≤ s.length) := by
          rw [hl, hl1] at hlen; simp at hlen; omega
        simp [yearHeadMatch, boundedYearAt, plainYearAt, this]
      | cons b l2 =>
        cases hl2 : l2 with
        | nil =>
          have : ¬(i + 4 ≤ s.length) := by
            rw [hl, hl1, hl2] at hlen; simp at hlen; omega
          simp [yearHeadMatch, boundedYearAt, plainYearAt, this]
        | cons c l3 =>
          cases hl3 : l3 with
          | nil =>
            have : ¬(i + 4 ≤ s.length) := by
              rw [hl, hl1, hl2, hl3] at hlen; simp at hlen; omega
            simp [yearHeadMatch, boundedYearAt, plainYearAt, this]
          | cons d rest =>
            subst hl1 hl2 hl3
            have hilen : i + 4 ≤ s.length := by
              rw [hl] at hlen; simp at hlen; omega
            have hdd : s.drop (i + 4) = rest := by
              have h4 : List.drop 4 (s.drop i) = rest := by rw [hl]; rfl
              rw [List.drop_drop] at h4
              exact h4
            rw [yearHeadMatch_cons]
            have htk : List.take 4 (a :: b :: c :: d :: rest) = [a, b, c, d] := by
              simp
            rw [htk]
            apply if_congr _ rfl rfl
            simp only [boundedYearAt, plainYearAt, nextNonWord, hl, hdd, hgd, htk, hilen,
              Bool.and_true, Bool.true_and, Bool.and_eq_true_iff,
              decide_eq_true_eq, List.all_cons, List.all_nil]
            cases rest with
            | nil => simp; tauto
            | cons e rest' => simp; tauto

theorem length_bound_of_bounded {s : Str} {i : Nat} (h : boundedYearAt s i = true) :
    i + 4 ≤ s.length := by
  simp only [boundedYearAt, plainYearAt, Bool.and_eq_true, decide_eq_true_eq] at h
  exact h.1.1.1.1.1

/-- Base case of the scan: a boundary-delimited year at the current offset is
returned immediately. -/
theorem searchYearAux_at (s : Str) (i : Nat) (hyes : boundedYearAt s i = true) :
    searchYearAux (prevCharOpt s i) (s.drop i) = some ((s.drop i).take 4) := by
  have hlen4 := length_bound_of_bounded hyes
  have hne : s.drop i ≠ [] := by
    intro h
    have := List.length_drop i (l := s)
    rw [h] at this
    simp at this
    omega
  obtain ⟨c, r, hcr⟩ := List.exists_cons_of_ne_nil hne
  have htr := tryYearAt_eq s i
  rw [hyes] at htr
  simp only [if_true] at htr
  rw [hcr] at htr ⊢
  simp [searchYearAux, htr]

/-- Scan correctness: if no boundary-delimited year occurs at offsets
`k ≤ j < i` and one occurs at `i`, the scan started at offset `k` returns the
slice at `i`. -/
theorem searchYearAux_finds (s : Str) (i : Nat) (hyes : boundedYearAt s i = true) :
    ∀ (n k : Nat), i - k ≤ n → k ≤ i →
      (∀ j, k ≤ j → j < i → boundedYearAt s j = false) →
      searchYearAux (prevCharOpt s k) (s.drop k) = some ((s.drop i).take 4) := by
  intro n
  induction n with
  | zero =>
    intro k hn hki _
    have hk : k = i := by omega
    subst hk
    exact searchYearAux_at s k hyes
  | succ n ih =>
    intro k hn hki hno
    rcases Nat.eq_or_lt_of_le hki with heq | hlt
    · subst heq
      exact searchYearAux_at s k hyes
    · have hlen4 := length_bound_of_bounded hyes
      have hne : s.drop k ≠ [] := by
        intro h
        have := List.length_drop k (l := s)
        rw [h] at this
        simp at this
        omega
      obtain ⟨c, r, hcr⟩ := List.exists_cons_of_ne_nil hne
      have hnone : tryYearAt (prevCharOpt s k) (s.drop k) = none := by
        rw [tryYearAt_eq, hno k le_rfl hlt]
        simp
      rw [hcr] at hnone ⊢
      have hprev : prevCharOpt s (k + 1) = some c := by
        simp [prevCharOpt, hcr]
      have hr : r = s.drop (k + 1) := by
        have hd : s.drop (k + 1) = List.drop 1 (s.drop k) := by
          rw [List.drop_drop]
        rw [hcr] at hd
        simpa using hd.symm
      simp only [searchYearAux, hnone]
      rw [← hprev, hr]
      exact ih (k + 1) (by omega) hlt (fun j hj1 hj2 => hno j (by omega) hj2)

/-- Year fallback of `parse_entry`: with no usable `year` field, the year is
the boundary-delimited in-range 4-digit slice at the least offset carrying
one. -/
theorem parse_entry_year_of_bounded (e : Str) (i : Nat)
    (h0 : fieldGet e "year".toList = none)
    (h1 : boundedYearAt e i = true)
    (h2 : ∀ j, j < i → boundedYearAt e j = false) :
    (parse_entry e).year = (e.drop i).take 4 := by
  have hs : searchYear e = some ((e.drop i).take 4) := by
    have := searchYearAux_finds e i h1 i 0 (by omega) (by omega)
      (fun j _ hj2 => h2 j hj2)
    simpa [searchYear, prevCharOpt] using this
  simp [parse_entry, fieldGetD, hs, show fieldGet e ['y', 'e', 'a', 'r'] = none from h0]

/-! ### Order lemmas for the two stable sorts -/

theorem strLe_total : ∀ s t : Str, strLe s t = true ∨ strLe t s = true
  | [], _ => Or.inl rfl
  | _ :: _, [] => Or.inr rfl
  | a :: s, b :: t => by
    unfold strLe
    rcases Nat.lt_trichotomy a.toNat b.toNat with h | h | h
    · left; simp [h]
    · have h2 : ¬(a.toNat < b.toNat) := by omega
      have h3 : ¬(b.toNat < a.toNat) := by omega
      rcases strLe_total s t with hs | hs <;> simp [h2, h3, hs]
    · right; simp [h]

theorem strLe_trans : ∀ s t u : Str, strLe s t = true → strLe t u = true → strLe s u = true
  | [], _, _ => by intro _ _; rfl
  | _ :: _, [], _ => by intro h _; exact absurd h (by simp [strLe])
  | _ :: _, _ :: _, [] => by intro _ h; exact absurd h (by simp [strLe])
  | a :: s, b :: t, c :: u => by
    intro h1 h2
    unfold strLe at h1 h2 ⊢
    by_cases hab : a.toNat < b.toNat
    · by_cases hbc : b.toNat < c.toNat
      · have hac : a.toNat < c.toNat := by omega
        simp [hac]
      · by_cases hcb : c.toNat < b.toNat
        · rw [if_neg hbc, if_pos hcb] at h2; cases h2
        · have hac : a.toNat < c.toNat := by omega
          simp [hac]
    · by_cases hba : b.toNat < a.toNat
      · rw [if_neg hab, if_pos hba] at h1; cases h1
      · by_cases hbc : b.toNat < c.toNat
        · have hac : a.toNat < c.toNat := by omega
          simp [hac]
        · by_cases hcb : c.toNat < b.toNat
          · rw [if_neg hbc, if_pos hcb] at h2; cases h2
          · rw [if_neg hab, if_neg hba] at h1
            rw [if_neg hbc, if_neg hcb] at h2
            have hac : ¬(a.toNat < c.toNat) := by omega
            have hca : ¬(c.toNat < a.toNat) := by omega
            rw [if_neg hac, if_neg hca]
            exact strLe_trans s t u h1 h2

theorem keyLe_total (x y : Int × Str) : keyLe x y = true ∨ keyLe y x = true := by
  unfold keyLe
  rcases Int.lt_trichotomy x.1 y.1 with h | h | h
  · left; simp [h]
  · rcases strLe_total x.2 y.2 with hs | hs <;> simp [h, hs]
  · right; simp [h]

theorem keyLe_trans (x y z : Int × Str) (h1 : keyLe x y = true) (h2 : keyLe y z = true) :
    keyLe x z = true := by
  unfold keyLe at h1 h2 ⊢
  simp only [Bool.or_eq_true, Bool.and_eq_true, decide_eq_true_eq] at h1 h2 ⊢
  rcases h1 with h1 | ⟨h1e, h1s⟩ <;> rcases h2 with h2 | ⟨h2e, h2s⟩
  · exact Or.inl (by omega)
  · exact Or.inl (by omega)
  · exact Or.inl (by omega)
  · exact Or.inr ⟨by omega, strLe_trans _ _ _ h1s h2s⟩

theorem ykLe_total (x y : Nat × Int) : ykLe x y = true ∨ ykLe y x = true := by
  unfold ykLe
  simp only [Bool.or_eq_true, Bool.and_eq_true, decide_eq_true_eq]
  omega

theorem ykLe_trans (x y z : Nat × Int) (h1 : ykLe x y = true) (h2 : ykLe y z = true) :
    ykLe x z = true := by
  unfold ykLe at h1 h2 ⊢
  simp only [Bool.or_eq_true, Bool.and_eq_true, decide_eq_true_eq] at h1 h2 ⊢
  omega

instance : IsTotal ((Int × Str) × Pub) pubRel := ⟨fun a b => keyLe_total a.1 b.1⟩

instance : IsTrans ((Int × Str) × Pub) pubRel :=
  ⟨fun a b c h1 h2 => keyLe_trans a.1 b.1 c.1 h1 h2⟩

instance : IsTotal ((Nat × Int) × Str) yearRel := ⟨fun a b => ykLe_total a.1 b.1⟩

instance : IsTrans ((Nat × Int) × Str) yearRel :=
  ⟨fun a b c h1 h2 => ykLe_trans a.1 b.1 c.1 h1 h2⟩

/-! ### Decoration lemmas (CPython's decorate-sort-undecorate) -/

theorem decorate_eq {α κ : Type} (g : α → Option κ) :
    ∀ {l : List α} {dec : List (κ × α)},
      l.mapM (fun p => (g p).map (fun k => (k, p))) = some dec →
      dec.map Prod.snd = l ∧ ∀ kp ∈ dec, g kp.2 = some kp.1 := by
  intro l
  induction l with
  | nil =>
    intro dec h
    have h2 : some ([] : List (κ × α)) = some dec := h
    injection h2 with h3
    subst h3
    exact ⟨rfl, by intro kp h; cases h⟩
  | cons a l ih =>
    intro dec h
    rw [List.mapM_cons] at h
    cases hg : g a with
    | none => rw [hg] at h; simp at h
    | some k =>
      rw [hg] at h
      cases hrest : l.mapM (fun p => (Option.map (fun k => (k, p)) (g p))) with
      | none =>
        rw [hrest] at h; simp at h
      | some dec' =>
        rw [hrest] at h
        have h2 : some ((k, a) :: dec') = some dec := h
        injection h2 with h3
        subst h3
        obtain ⟨ih1, ih2⟩ := ih hrest
        refine ⟨by simp [ih1], ?_⟩
        intro kp hkp
        rcases List.mem_cons.mp hkp with h | h
        · subst h; exact hg
        · exact ih2 kp h

theorem decorate_isSome {α κ : Type} (g : α → Option κ) :
    ∀ {l : List α}, (∀ a ∈ l, (g a).isSome) →
      (l.mapM (fun p => (g p).map (fun k => (k, p)))).isSome := by
  intro l
  induction l with
  | nil => intro _; rfl
  | cons a l ih =>
    intro h
    rw [List.mapM_cons]
    have ha := h a (List.mem_cons_self ..)
    cases hg : g a with
    | none => rw [hg] at ha; cases ha
    | some k =>
      have hrest := ih (fun x hx => h x (List.mem_cons_of_mem _ hx))
      cases hr : l.mapM (fun p => (Option.map (fun k => (k, p)) (g p))) with
      | none => rw [hr] at hrest; cases hrest
      | some dec' => simp [hr]

/-! ### Dict-key lemmas -/

theorem pyKeysF_mem : ∀ (fuel : Nat) (l : List Str), l.length ≤ fuel →
    ∀ y, y ∈ pyKeysF fuel l ↔ y ∈ l := by
  intro fuel
  induction fuel with
  | zero =>
    intro l hl y
    have : l = [] := List.eq_nil_of_length_eq_zero (by omega)
    subst this
    simp [pyKeysF]
  | succ fuel ih =>
    intro l hl y
    cases l with
    | nil => simp [pyKeysF]
    | cons z rest =>
      have hlf : (rest.filter (fun w => !(w == z))).length ≤ fuel := by
        have := (List.filter_sublist (l := rest) (p := fun w => !(w == z))).length_le
        simp only [List.length_cons] at hl
        omega
      simp only [pyKeysF, List.mem_cons, ih _ hlf, List.mem_filter]
      constructor
      · rintro (h | ⟨h, _⟩)
        · exact Or.inl h
        · exact Or.inr h
      · rintro (h | h)
        · exact Or.inl h
        · by_cases hyz : y = z
          · exact Or.inl hyz
          · exact Or.inr ⟨h, by simp [hyz]⟩

theorem pyKeysF_nodup : ∀ (fuel : Nat) (l : List Str), l.length ≤ fuel →
    (pyKeysF fuel l).Nodup := by
  intro fuel
  induction fuel with
  | zero =>
    intro l hl
    have : l = [] := List.eq_nil_of_length_eq_zero (by omega)
    subst this
    simp [pyKeysF]
  | succ fuel ih =>
    intro l hl
    cases l with
    | nil => simp [pyKeysF]
    | cons z rest =>
      have hlf : (rest.filter (fun w => !(w == z))).length ≤ fuel := by
        have := (List.filter_sublist (l := rest) (p := fun w => !(w == z))).length_le
        simp only [List.length_cons] at hl
        omega
      simp only [pyKeysF, List.nodup_cons]
      refine ⟨?_, ih _ hlf⟩
      intro hz
      have := (pyKeysF_mem fuel _ hlf z).mp hz
      simp at this

theorem pyKeys_mem (l : List Str) (y : Str) : y ∈ pyKeys l ↔ y ∈ l :=
  pyKeysF_mem l.length l le_rfl y

theorem pyKeys_nodup (l : List Str) : (pyKeys l).Nodup :=
  pyKeysF_nodup l.length l le_rfl

/-! ### Grouping lemmas -/

/-- Concatenating the buckets of a duplicate-free list of years that covers
exactly the years occurring in `ps` is a permutation of `ps`. -/
theorem flatten_buckets_perm :
    ∀ (ys : List Str) (ps : List Pub), ys.Nodup →
      (∀ y, y ∈ ys ↔ y ∈ ps.map Pub.year) →
      ((ys.map (bucket ps)).flatten).Perm ps := by
  intro ys
  induction ys with
  | nil =>
    intro ps _ hmem
    cases ps with
    | nil => simp
    | cons p ps' =>
      exact absurd ((hmem p.year).mpr (by simp)) (by simp)
  | cons y ys' ih =>
    intro ps hnd hmem
    have hy_not : y ∉ ys' := (List.nodup_cons.mp hnd).1
    have hnd' : ys'.Nodup := (List.nodup_cons.mp hnd).2
    set ps' := ps.filter (fun p => !(p.year == y)) with hps'
    have hmem' : ∀ y', y' ∈ ys' ↔ y' ∈ ps'.map Pub.year := by
      intro y'
      constructor
      · intro h
        have hyy : y' ≠ y := fun he => hy_not (he ▸ h)
        have := (hmem y').mpr
        have hin : y' ∈ ps.map Pub.year := (hmem y').mp (List.mem_cons_of_mem _ h)
        obtain ⟨p, hp, hpy⟩ := List.mem_map.mp hin
        refine List.mem_map.mpr ⟨p, ?_, hpy⟩
        rw [hps']
        refine List.mem_filter.mpr ⟨hp, ?_⟩
        simp [hpy, hyy]
      · intro h
        obtain ⟨p, hp, hpy⟩ := List.mem_map.mp h
        rw [hps'] at hp
        obtain ⟨hp1, hp2⟩ := List.mem_filter.mp hp
        have hyy : p.year ≠ y := by simpa using hp2
        have : y' ∈ y :: ys' := (hmem y').mpr (List.mem_map.mpr ⟨p, hp1, hpy⟩)
        rcases List.mem_cons.mp this with he | hm
        · exact absurd (hpy.trans he) hyy
        · exact hm
    have hbuckets : ∀ y' ∈ ys', bucket ps y' = bucket ps' y' := by
      intro y' hy'
      have hyy : y' ≠ y := fun he => hy_not (he ▸ hy')
      rw [hps', bucket, bucket, List.filter_filter]
      apply List.filter_congr
      intro p _
      cases hpy : p.year == y' with
      | true =>
        have : p.year = y' := by simpa using hpy
        simp [this, hyy]
      | false => simp
    have h1 : ((y :: ys').map (bucket ps)).flatten
        = bucket ps y ++ (ys'.map (bucket ps')).flatten := by
      simp only [List.map_cons, List.flatten_cons]
      congr 1
      exact congrArg List.flatten (List.map_congr_left hbuckets)
    have h2 : (bucket ps y ++ (ys'.map (bucket ps')).flatten).Perm (bucket ps y ++ ps') :=
      (ih ps' hnd' hmem').append_left _
    have h3 : (bucket ps y ++ ps').Perm ps := by
      rw [bucket, hps']
      exact List.filter_append_perm _ ps
    rw [h1]
    exact h2.trans h3

/-! ### Escaping lemmas -/

theorem pyReplaceF_char (c : Char) (rep : Str) :
    ∀ (fuel : Nat) (s : Str), s.length ≤ fuel →
      pyReplaceF [c] rep fuel s = s.flatMap (fun x => if x == c then rep else [x]) := by
  intro fuel
  induction fuel with
  | zero =>
    intro s hs
    have : s = [] := List.eq_nil_of_length_eq_zero (by omega)
    subst this
    rfl
  | succ fuel ih =>
    intro s hs
    cases s with
    | nil => rfl
    | cons x s' =>
      have hlen : s'.length ≤ fuel := by
        simp only [List.length_cons] at hs; omega
      simp only [pyReplaceF, List.flatMap_cons]
      cases hx : x == c with
      | true =>
        have hcond : ([c] : Str) ≠ [] ∧ pyStartswith (x :: s') [c] = true := by
          refine ⟨by simp, ?_⟩
          simp [pyStartswith, hx]
        rw [if_pos hcond]
        simp only [List.length_cons, List.length_nil, Nat.zero_add, List.drop_succ_cons,
          List.drop_zero]
        rw [ih s' hlen]
        simp [hx]
      | false =>
        have hcond : ¬(([c] : Str) ≠ [] ∧ pyStartswith (x :: s') [c] = true) := by
          intro hcon
          have := hcon.2
          simp [pyStartswith, hx] at this
        rw [if_neg hcond]
        rw [ih s' hlen]
        simp [hx]

theorem pyReplace_char (c : Char) (rep s : Str) :
    pyReplace [c] rep s = s.flatMap (fun x => if x == c then rep else [x]) :=
  pyReplaceF_char c rep s.length s le_rfl

/-- One step of `html.escape`: the head character contributes its table
entry. -/
theorem escape_cons (x : Char) (s : Str) : escape (x :: s) = escChar x ++ escape s := by
  unfold escape
  simp only [pyReplace_char, List.flatMap_cons, List.flatMap_append]
  by_cases h1 : x = '&'
  · subst h1; rfl
  · by_cases h2 : x = '<'
    · subst h2; rfl
    · by_cases h3 : x = '>'
      · subst h3; rfl
      · by_cases h4 : x = '"'
        · subst h4; rfl
        · by_cases h5 : x = '\''
          · subst h5; rfl
          · simp [escChar, h1, h2, h3, h4, h5]

theorem pyStartswith_append_self : ∀ p t : Str, pyStartswith (p ++ t) p = true
  | [], t => by cases t <;> rfl
  | c :: p', t => by simp [pyStartswith, pyStartswith_append_self p' t]

/-- The escaped string never contains a raw `<`, `>` or `"`. -/
theorem noLtGtQuot_escape (s : Str) : noLtGtQuot (escape s) = true := by
  induction s with
  | nil => rfl
  | cons x s ih =>
    rw [escape_cons]
    simp only [noLtGtQuot, List.all_append] at ih ⊢
    rw [ih, Bool.and_true]
    by_cases h1 : x = '&'
    · subst h1; rfl
    · by_cases h2 : x = '<'
      · subst h2; rfl
      · by_cases h3 : x = '>'
        · subst h3; rfl
        · by_cases h4 : x = '"'
          · subst h4; rfl
          · by_cases h5 : x = '\''
            · subst h5; rfl
            · simp [escChar, h1, h2, h3, h4, h5]

/-- Every `&` of the escaped string opens one of the five entities. -/
theorem ampOk_escape (s : Str) : ampEntityOk (escape s) = true := by
  induction s with
  | nil => rfl
  | cons x s ih =>
    rw [escape_cons]
    by_cases h1 : x = '&'
    · subst h1
      simp [escChar, ampEntityOk, ih]
      exact Or.inl (Or.inl (Or.inl (Or.inl
        (pyStartswith_append_self "amp;".toList (escape s)))))
    · by_cases h2 : x = '<'
      · subst h2
        simp [escChar, ampEntityOk, ih]
        exact Or.inl (Or.inl (Or.inl (Or.inr
          (pyStartswith_append_self "lt;".toList (escape s)))))
      · by_cases h3 : x = '>'
        · subst h3
          simp [escChar, ampEntityOk, ih]
          exact Or.inl (Or.inl (Or.inr
            (pyStartswith_append_self "gt;".toList (escape s))))
        · by_cases h4 : x = '"'
          · subst h4
            simp [escChar, ampEntityOk, ih]
            exact Or.inl (Or.inr
              (pyStartswith_append_self "quot;".toList (escape s)))
          · by_cases h5 : x = '\''
            · subst h5
              simp [escChar, ampEntityOk, ih]
              exact Or.inr (pyStartswith_append_self "#x27;".toList (escape s))
            · simp [escChar, ampEntityOk, h1, h2, h3, h4, h5, ih]

/-- `format_li` is the template instantiated with the individually escaped
title, author, extra and url. -/
theorem format_li_eq_template (pub : Pub) :
    format_li pub =
      liTemplate pub (escape pub.title) (escape pub.author) (escape pub.extra)
        (escape pub.url) := rfl

/-! ### Characterisation of the two sorts -/

/-- What a successful `pubs.sort(key=sort_key)` guarantees: the result is a
permutation of the input, every element has a key, and elements appear in
weakly increasing key order. -/
theorem sortPubs_spec (pubs ps : List Pub) (h : sortPubs? pubs = some ps) :
    ps.Perm pubs ∧ (∀ p ∈ ps, (sort_key p).isSome) ∧
      ps.Pairwise (fun p q => ∀ kp kq, sort_key p = some kp → sort_key q = some kq →
        keyLe kp kq = true) := by
  unfold sortPubs? at h
  cases hdec : pubs.mapM (fun p => (sort_key p).map (fun k => (k, p))) with
  | none => rw [hdec] at h; simp at h
  | some dec =>
    rw [hdec] at h
    have h' : some ((List.insertionSort pubRel dec).map Prod.snd) = some ps := h
    injection h' with h''
    obtain ⟨hsnd, hinv⟩ := decorate_eq _ hdec
    have hperm : (List.insertionSort pubRel dec).Perm dec := List.perm_insertionSort _ _
    have hsorted : List.Pairwise pubRel (List.insertionSort pubRel dec) :=
      List.sorted_insertionSort pubRel dec
    refine ⟨?_, ?_, ?_⟩
    · rw [← h'', ← hsnd]
      exact hperm.map Prod.snd
    · intro p hp
      rw [← h''] at hp
      obtain ⟨kp, hkp, hkp2⟩ := List.mem_map.mp hp
      have := hinv kp (hperm.mem_iff.mp hkp)
      rw [hkp2] at this
      simp [this]
    · rw [← h'', List.pairwise_map]
      apply hsorted.imp_of_mem
      intro a b ha hb hr kp kq hkp hkq
      have hga : sort_key a.2 = some a.1 := hinv a (hperm.mem_iff.mp ha)
      have hgb : sort_key b.2 = some b.1 := hinv b (hperm.mem_iff.mp hb)
      rw [hga] at hkp
      rw [hgb] at hkq
      injection hkp with e1
      injection hkq with e2
      subst e1; subst e2
      exact hr

/-- The analogous guarantee for `sorted(grouped.keys(), key=...)`. -/
theorem sortYears_spec (ks ys : List Str) (h : sortYears? ks = some ys) :
    ys.Perm ks ∧ (∀ y ∈ ys, (yearKey? y).isSome) ∧
      ys.Pairwise (fun y z => ∀ ky kz, yearKey? y = some ky → yearKey? z = some kz →
        ykLe ky kz = true) := by
  unfold sortYears? at h
  cases hdec : ks.mapM (fun y => (yearKey? y).map (fun k => (k, y))) with
  | none => rw [hdec] at h; simp at h
  | some dec =>
    rw [hdec] at h
    have h' : some ((List.insertionSort yearRel dec).map Prod.snd) = some ys := h
    injection h' with h''
    obtain ⟨hsnd, hinv⟩ := decorate_eq _ hdec
    have hperm : (List.insertionSort yearRel dec).Perm dec := List.perm_insertionSort _ _
    have hsorted : List.Pairwise yearRel (List.insertionSort yearRel dec) :=
      List.sorted_insertionSort yearRel dec
    refine ⟨?_, ?_, ?_⟩
    · rw [← h'', ← hsnd]
      exact hperm.map Prod.snd
    · intro y hy
      rw [← h''] at hy
      obtain ⟨ky, hky, hky2⟩ := List.mem_map.mp hy
      have := hinv ky (hperm.mem_iff.mp hky)
      rw [hky2] at this
      simp [this]
    · rw [← h'', List.pairwise_map]
      apply hsorted.imp_of_mem
      intro a b ha hb hr ky kz hky hkz
      have hga : yearKey? a.2 = some a.1 := hinv a (hperm.mem_iff.mp ha)
      have hgb : yearKey? b.2 = some b.1 := hinv b (hperm.mem_iff.mp hb)
      rw [hga] at hky
      rw [hgb] at hkz
      injection hky with e1
      injection hkz with e2
      subst e1; subst e2
      exact hr

/-- Keys of two records with the same year string share their first
component, and carry the lowered titles. -/
theorem sort_key_same_year {p q : Pub} {kp kq : Int × Str} (hy : p.year = q.year)
    (hp : sort_key p = some kp) (hq : sort_key q = some kq) :
    kp.1 = kq.1 ∧ kp.2 = pyLower p.title ∧ kq.2 = pyLower q.title := by
  unfold sort_key at hp hq
  rw [hy] at hp
  cases hdig : pyStrIsDigit q.year with
  | true =>
    rw [hdig] at hp hq
    simp only [if_true] at hp hq
    cases hint : pyInt? q.year with
    | none => rw [hint] at hp; simp at hp
    | some n =>
      rw [hint] at hp hq
      simp only [Option.map] at hp hq
      injection hp with e1
      injection hq with e2
      subst e1; subst e2
      exact ⟨rfl, rfl, rfl⟩
  | false =>
    rw [hdig] at hp hq
    simp only [Bool.false_eq_true, if_false] at hp hq
    injection hp with e1
    injection hq with e2
    subst e1; subst e2
    exact ⟨rfl, rfl, rfl⟩

theorem keyLe_same_fst {kp kq : Int × Str} (h : kp.1 = kq.1) :
    keyLe kp kq = strLe kp.2 kq.2 := by
  unfold keyLe
  rw [h]
  simp [Int.lt_irrefl]

/-! ### Run lemmas for the error-handling and empty-input claims -/

/-- A record whose `sort_key` did not raise also has a non-raising year-bucket
key (both raise exactly when the year is digit-class with a non-decimal
digit). -/
theorem yearKey_isSome_of_sort_key {p : Pub} (h : (sort_key p).isSome) :
    (yearKey? p.year).isSome := by
  unfold sort_key at h
  unfold yearKey?
  cases hdig : pyStrIsDigit p.year with
  | true =>
    rw [hdig] at h
    simp only [if_true] at h ⊢
    cases hint : pyInt? p.year with
    | none => rw [hint] at h; simp at h
    | some n => simp
  | false => simp

/-- When every parsed record's sort key is computable, the whole pipeline
succeeds. -/
theorem pipeline_some_of_safe (bib : Str)
    (hsafe : ∀ p ∈ pubsOf bib, (sort_key p).isSome) :
    ∃ out, pipeline? bib = some out := by
  have h1 := decorate_isSome sort_key hsafe
  cases hps : sortPubs? (pubsOf bib) with
  | none =>
    exfalso
    unfold sortPubs? at hps
    cases hdec : (pubsOf bib).mapM (fun p => (sort_key p).map (fun k => (k, p))) with
    | none => rw [hdec] at h1; cases h1
    | some dec => rw [hdec] at hps; simp at hps
  | some ps =>
    obtain ⟨hperm, _, _⟩ := sortPubs_spec (pubsOf bib) ps hps
    have hyears : ∀ y ∈ yearsEncounter ps, (yearKey? y).isSome := by
      intro y hy
      have hy2 : y ∈ ps.map Pub.year := (pyKeys_mem _ y).mp hy
      obtain ⟨p, hp, hpy⟩ := List.mem_map.mp hy2
      have hpmem : p ∈ pubsOf bib := hperm.mem_iff.mp hp
      have := yearKey_isSome_of_sort_key (hsafe p hpmem)
      rw [hpy] at this
      exact this
    have h2 := decorate_isSome yearKey? hyears
    cases hys : sortYears? (yearsEncounter ps) with
    | none =>
      exfalso
      unfold sortYears? at hys
      cases hdec : (yearsEncounter ps).mapM (fun y => (yearKey? y).map (fun k => (k, y))) with
      | none => rw [hdec] at h2; cases h2
      | some dec => rw [hdec] at hys; simp at hys
    | some ys =>
      refine ⟨renderAll ps ys, ?_⟩
      unfold sortedPubsOf at *
      simp [pipeline?, sortedPubsOf, hps, hys]

/-- If no line of the input opens an entry, the splitter's loop never leaves
its initial state. -/
theorem foldl_splitStep_nil (lines : List Str)
    (h : ∀ l ∈ lines, pyStartswith (pyStrip l) ['@'] = false) :
    lines.foldl splitStep ⟨[], [], 0, false⟩ = ⟨[], [], 0, false⟩ := by
  induction lines with
  | nil => rfl
  | cons l ls ih =>
    simp only [List.foldl_cons]
    have hstep : splitStep ⟨[], [], 0, false⟩ l = ⟨[], [], 0, false⟩ := by
      unfold splitStep
      rw [h l (List.mem_cons_self ..)]
      simp
    rw [hstep]
    exact ih (fun x hx => h x (List.mem_cons_of_mem _ hx))

theorem pyInt_eq_of_isSome {s : Str} (h : (pyInt? s).isSome) :
    pyInt? s = some (strNatVal s : Int) := by
  unfold pyInt? at h ⊢
  cases hc : (!s.isEmpty && s.all Char.isDigit) with
  | false => rw [hc] at h; simp at h
  | true => simp [hc]

/-! ### Concrete inputs used by counterexamples and witnesses -/

/-- Entry with no `year` field whose only in-range 4-digit substring sits
inside the longer digit run `12020` (so it is not word-boundary-delimited). -/
def entryNoBoundary : Str := "@misc\x7ba,\nnote = \x7bx12020\x7d\n\x7d".toList

/-- Entry whose `year` field is present but cleans to the empty string. -/
def entryEmptyYear : Str := "@misc\x7ba,\nyear = \x7b\x7d,\n\x7d".toList

/-- Entry with an ordinary `year` field. -/
def entryPlainYear : Str := "@misc\x7ba,\nyear = \x7b2020\x7d,\n\x7d".toList

/-- Entry with no `year` field and a boundary-delimited year at offset 22. -/
def entryFromYear : Str := "@misc\x7ba,\nnote = \x7bfrom 2020\x7d\n\x7d".toList

/-- The specification's example input, on a single line as written there. -/
def exampleSingleLine : Str :=
  "@article\x7bx2020, title=\x7bHello World\x7d, author=\x7bA and B\x7d, year=\x7b2020\x7d, url=\x7bhttp://ex.com\x7d\x7d".toList

/-- The same example with each field on its own line (the layout the per-line
field pattern actually parses). -/
def exampleMultiLine : Str :=
  "@article\x7bx2020,\n  title=\x7bHello World\x7d,\n  author=\x7bA and B\x7d,\n  year=\x7b2020\x7d,\n  url=\x7bhttp://ex.com\x7d\n\x7d\n".toList

/-- Expected output for `exampleMultiLine`. -/
def exampleMultiOut : Str :=
  "<section class=\"card\">\n  <h2>2020</h2>\n  <ul class=\"pub-list\">\n    <li><a href=\"http://ex.com\" target=\"_blank\" rel=\"noopener noreferrer\"><strong>Hello World</strong></a> ".toList
    ++ emDashMojibake ++ " A, B.</li>\n  </ul>\n</section>\n\n".toList

/-- Two entries whose digit-class year strings have equal numeric value. -/
def bibTie : Str := "@a\x7bk1,\nyear=\x7b2020\x7d,\n\x7d\n@b\x7bk2,\nyear=\x7b02020\x7d,\n\x7d\n".toList

/-- A bibliography whose second entry has year `²`: `str.isdigit` accepts it,
`int` raises. -/
def crashBib : Str :=
  "@a\x7bk1,\nyear=\x7b".toList ++ [Char.ofNat 178] ++ "\x7d,\n\x7d\n@b\x7bk2,\nyear=\x7b2020\x7d,\n\x7d\n".toList

/-- A malformed bibliography: the entry never closes its braces. -/
def malformedBib : Str := "@a\x7bk1, title=\x7bUnclosed".toList

/-- An input with no `@`-line at all. -/
def noEntryBib : Str := "plain text\nno entries here\n".toList

/-- Single-entry input for the grouping witness. -/
def bibOneEntry : Str := "@a\x7bk,\nyear=\x7b2020\x7d,\n\x7d".toList

/-- Two same-year entries with titles out of alphabetical order. -/
def bibTwoTitles : Str :=
  "@a\x7bk1,\ntitle=\x7bZebra\x7d,\nyear=\x7b2021\x7d,\n\x7d\n@b\x7bk2,\ntitle=\x7bApple\x7d,\nyear=\x7b2021\x7d,\n\x7d\n".toList

/-- A record with non-empty author and extra, for rendering theorems. -/
def pubDemo : Pub :=
  { ty := "misc".toList, key := "k".toList, year := "2020".toList,
    title := "T".toList, author := "A, B".toList, venue := [],
    url := [], extra := "E".toList }

/-! ### Claim theorems -/

/-- C1, counterexample: the entry `@misc{a,\nnote = {x12020}\n}` lacks a
`year` field and its first (and only) 4-digit substring with value in
1900–2099 is `2020` (inside `x12020`), yet `parse_entry` resolves the year to
`"Unknown"` — the regex requires word boundaries, so the claim as stated is
false. -/
theorem C1_counterexample :
    fieldGet entryNoBoundary "year".toList = none ∧
    firstPlainYear entryNoBoundary = some "2020".toList ∧
    (parse_entry entryNoBoundary).year = "Unknown".toList ∧
    (parse_entry entryNoBoundary).year ≠ "2020".toList := by decide

/-- C1, amended: for an entry with no `year` field, if offset `i` carries the
first *word-boundary-delimited* 4-digit substring with value in 1900–2099,
`parse_entry` resolves the year to that substring. -/
theorem C1_year_fallback_word_bounded (e : Str) (i : Nat)
    (h0 : fieldGet e "year".toList = none)
    (h1 : boundedYearAt e i = true)
    (h2 : ∀ j, j < i → boundedYearAt e j = false) :
    (parse_entry e).year = (e.drop i).take 4 :=
  parse_entry_year_of_bounded e i h0 h1 h2

/-- C1, witness: the amended theorem applied to a concrete entry whose
boundary-delimited year `2020` sits at offset 22. -/
theorem C1_witness : (parse_entry entryFromYear).year = "2020".toList := by
  have h := C1_year_fallback_word_bounded entryFromYear 22 (by decide) (by decide)
    (by decide)
  rw [h]
  decide

/-- C2, counterexample: in `@misc{a,\nyear = {},\n}` the `year` field is
present with cleaned value `""`, but the record's year is `"Unknown"`, not
that cleaned value — the code falls back whenever the cleaned value is
empty. -/
theorem C2_counterexample :
    fieldGet entryEmptyYear "year".toList = some [] ∧
    (parse_entry entryEmptyYear).year = "Unknown".toList ∧
    (parse_entry entryEmptyYear).year ≠ ([] : Str) := by decide

/-- C2, amended: when the `year` field is present with a *non-empty* cleaned
value, the record's year equals that cleaned value exactly. -/
theorem C2_year_field_used (e v : Str)
    (h1 : fieldGet e "year".toList = some v) (h2 : v ≠ []) :
    (parse_entry e).year = v := by
  have h1' : fieldGet e ['y', 'e', 'a', 'r'] = some v := h1
  have hem : v.isEmpty = false := by
    cases v with
    | nil => exact absurd rfl h2
    | cons c cs => rfl
  simp [parse_entry, fieldGetD, h1', hem]

/-- C2, witness: the amended theorem applied to an entry with year `2020`. -/
theorem C2_witness :
    fieldGet entryPlainYear "year".toList = some "2020".toList ∧
    (parse_entry entryPlainYear).year = "2020".toList :=
  ⟨by decide, C2_year_field_used entryPlainYear "2020".toList (by decide) (by decide)⟩

/-- C3, counterexample: on the single-line example input the per-line field
pattern matches nothing (the line starts with `@`, not a field name), so the
lone record is titled `Untitled` with no link — the output contains neither
`Hello World` nor `http://ex.com`. -/
theorem C3_counterexample :
    (pubsOf exampleSingleLine).map Pub.title = ["Untitled".toList] ∧
    (pipeline? exampleSingleLine).map
      (fun out => containsSub out "Hello World".toList) = some false ∧
    (pipeline? exampleSingleLine).map
      (fun out => containsSub out "http://ex.com".toList) = some false := by decide

set_option maxRecDepth 40000 in
/-- C3, amended: with each field of the example on its own line, the pipeline
emits exactly one `2020` section whose single list item links
`http://ex.com`, reads `Hello World`, and carries the author clause `A, B`
(separated by the source file's mis-encoded dash). -/
theorem C3_example_multiline : pipeline? exampleMultiLine = some exampleMultiOut := by
  decide

/-- C4: flattening the year buckets in output order yields exactly the parsed
record list up to permutation — no record is lost, none duplicated. -/
theorem C4_group_flatten_perm (bib : Str) (ps : List Pub) (ys : List Str)
    (h1 : sortedPubsOf bib = some ps)
    (h2 : sortYears? (yearsEncounter ps) = some ys) :
    ((ys.map (bucket ps)).flatten).Perm (pubsOf bib) := by
  obtain ⟨hperm, _, _⟩ := sortPubs_spec (pubsOf bib) ps h1
  obtain ⟨hyperm, _, _⟩ := sortYears_spec _ ys h2
  have hnd : ys.Nodup := hyperm.symm.nodup (pyKeys_nodup _)
  have hmem : ∀ y, y ∈ ys ↔ y ∈ ps.map Pub.year := by
    intro y
    rw [hyperm.mem_iff]
    exact pyKeys_mem _ y
  exact (flatten_buckets_perm ys ps hnd hmem).trans hperm

/-- C4, witness: the theorem applied to a one-entry input. -/
theorem C4_witness :
    ((([("2020".toList)] : List Str).map (bucket (pubsOf bibOneEntry))).flatten).Perm
      (pubsOf bibOneEntry) :=
  C4_group_flatten_perm bibOneEntry (pubsOf bibOneEntry) ["2020".toList]
    (by decide) (by decide)

/-- C5, counterexample: on an input with year strings `2020` and `02020` the
emitted buckets are those two digit strings in that order, with *equal*
numeric value — so the numeric bucket order is not strictly descending. -/
theorem C5_counterexample :
    (sortedPubsOf bibTie).bind (fun ps => sortYears? (yearsEncounter ps))
      = some ["2020".toList, "02020".toList] ∧
    pyStrIsDigit "2020".toList = true ∧
    pyStrIsDigit "02020".toList = true ∧
    strNatVal "2020".toList = strNatVal "02020".toList := by decide

/-- C5, amended: the emitted year buckets split into the digit-class years
first, in weakly descending numeric order (distinct digit strings may share
a numeric value), followed by the non-digit years. -/
theorem C5_years_order (bib : Str) (ps : List Pub) (ys : List Str)
    (h1 : sortedPubsOf bib = some ps)
    (h2 : sortYears? (yearsEncounter ps) = some ys) :
    ∃ a b, ys = a ++ b ∧ (∀ y ∈ a, pyStrIsDigit y = true) ∧
      (∀ y ∈ b, pyStrIsDigit y = false) ∧
      a.Pairwise (fun x z => strNatVal z ≤ strNatVal x) := by
  obtain ⟨_, hkeys, hpair⟩ := sortYears_spec _ ys h2
  have hRc : ys.Pairwise (fun y z =>
      (pyStrIsDigit y = false → pyStrIsDigit z = false) ∧
      (pyStrIsDigit y = true → pyStrIsDigit z = true →
        strNatVal z ≤ strNatVal y)) := by
    refine hpair.imp_of_mem ?_
    intro y z hy hz hr
    have hky := hkeys y hy
    have hkz := hkeys z hz
    constructor
    · intro hyd
      cases hzt : pyStrIsDigit z with
      | false => rfl
      | true =>
        exfalso
        have h1y : yearKey? y = some (1, 0) := by
          unfold yearKey?
          rw [hyd]
          simp
        have hintz : pyInt? z = some (strNatVal z : Int) := by
          apply pyInt_eq_of_isSome
          unfold yearKey? at hkz
          rw [hzt] at hkz
          simp only [if_true] at hkz
          cases hi : pyInt? z with
          | none => rw [hi] at hkz; simp at hkz
          | some n => simp
        have h1z : yearKey? z = some (0, -(strNatVal z : Int)) := by
          unfold yearKey?
          rw [hzt]
          simp [hintz]
        have := hr _ _ h1y h1z
        unfold ykLe at this
        simp at this
    · intro hyd hzd
      have hinty : pyInt? y = some (strNatVal y : Int) := by
        apply pyInt_eq_of_isSome
        unfold yearKey? at hky
        rw [hyd] at hky
        simp only [if_true] at hky
        cases hi : pyInt? y with
        | none => rw [hi] at hky; simp at hky
        | some n => simp
      have hintz : pyInt? z = some (strNatVal z : Int) := by
        apply pyInt_eq_of_isSome
        unfold yearKey? at hkz
        rw [hzd] at hkz
        simp only [if_true] at hkz
        cases hi : pyInt? z with
        | none => rw [hi] at hkz; simp at hkz
        | some n => simp
      have h1y : yearKey? y = some (0, -(strNatVal y : Int)) := by
        unfold yearKey?
        rw [hyd]
        simp [hinty]
      have h1z : yearKey? z = some (0, -(strNatVal z : Int)) := by
        unfold yearKey?
        rw [hzd]
        simp [hintz]
      have := hr _ _ h1y h1z
      unfold ykLe at this
      simp only [Bool.or_eq_true, Bool.and_eq_true, decide_eq_true_eq] at this
      omega
  refine ⟨ys.takeWhile pyStrIsDigit, ys.dropWhile pyStrIsDigit,
    (List.takeWhile_append_dropWhile ..).symm, ?_, ?_, ?_⟩
  · intro y hy
    exact List.mem_takeWhile_imp hy
  · intro y hy
    cases hb : ys.dropWhile pyStrIsDigit with
    | nil => rw [hb] at hy; cases hy
    | cons z b' =>
      have hz : pyStrIsDigit z = false := by
        have := List.head?_dropWhile_not pyStrIsDigit ys
        rw [hb] at this
        simpa using this
      rw [hb] at hy
      rcases List.mem_cons.mp hy with he | hm
      · rw [he]; exact hz
      · have hpairb : List.Pairwise (fun w v =>
            (pyStrIsDigit w = false → pyStrIsDigit v = false) ∧
            (pyStrIsDigit w = true → pyStrIsDigit v = true →
              strNatVal v ≤ strNatVal w)) (z :: b') := by
          rw [← hb]
          exact List.Pairwise.sublist (List.dropWhile_sublist _) hRc
        exact ((List.pairwise_cons.mp hpairb).1 y hm).1 hz
  · have hsub : List.Pairwise (fun w v =>
        (pyStrIsDigit w = false → pyStrIsDigit v = false) ∧
        (pyStrIsDigit w = true → pyStrIsDigit v = true →
          strNatVal v ≤ strNatVal w)) (ys.takeWhile pyStrIsDigit) :=
      List.Pairwise.sublist (List.takeWhile_sublist _) hRc
    refine hsub.imp_of_mem ?_
    intro x z hx hz hr
    exact hr.2 (List.mem_takeWhile_imp hx) (List.mem_takeWhile_imp hz)

/-- C5, witness: the amended theorem applied to the equal-value input. -/
theorem C5_witness :
    ∃ a b, (["2020".toList, "02020".toList] : List Str) = a ++ b ∧
      (∀ y ∈ a, pyStrIsDigit y = true) ∧
      (∀ y ∈ b, pyStrIsDigit y = false) ∧
      a.Pairwise (fun x z => strNatVal z ≤ strNatVal x) :=
  C5_years_order bibTie ((sortedPubsOf bibTie).getD []) _ (by decide) (by decide)

/-- C6: inside every output bucket the records appear in ascending
case-insensitive title order. -/
theorem C6_bucket_title_sorted (bib : Str) (ps : List Pub) (y : Str)
    (h1 : sortedPubsOf bib = some ps) :
    (bucket ps y).Pairwise
      (fun p q => strLe (pyLower p.title) (pyLower q.title) = true) := by
  obtain ⟨_, hkeys, hpair⟩ := sortPubs_spec (pubsOf bib) ps h1
  have hRc : ps.Pairwise (fun p q => p.year = q.year →
      strLe (pyLower p.title) (pyLower q.title) = true) := by
    refine hpair.imp_of_mem ?_
    intro p q hp hq hr hy
    obtain ⟨kp, hkp⟩ := Option.isSome_iff_exists.mp (hkeys p hp)
    obtain ⟨kq, hkq⟩ := Option.isSome_iff_exists.mp (hkeys q hq)
    obtain ⟨hfst, hsp, hsq⟩ := sort_key_same_year hy hkp hkq
    have hle := hr kp kq hkp hkq
    rw [keyLe_same_fst hfst, hsp, hsq] at hle
    exact hle
  have hb := List.Pairwise.filter (fun p => p.year == y) hRc
  refine hb.imp_of_mem ?_
  intro p q hp hq hr
  have hpy : p.year = y := by
    have := (List.mem_filter.mp hp).2
    simpa using this
  have hqy : q.year = y := by
    have := (List.mem_filter.mp hq).2
    simpa using this
  exact hr (hpy.trans hqy.symm)

/-- C6, witness: the theorem applied to the Zebra/Apple input. -/
theorem C6_witness :
    (bucket ((sortedPubsOf bibTwoTitles).getD []) "2021".toList).Pairwise
      (fun p q => strLe (pyLower p.title) (pyLower q.title) = true) :=
  C6_bucket_title_sorted bibTwoTitles ((sortedPubsOf bibTwoTitles).getD [])
    "2021".toList (by decide)

/-- C7: `format_li` places each of title, author and extra (and the url) into
the list-item template only after escaping it individually, and an escaped
string contains no raw `<`, `>` or `"` and no `&` other than as the start of
an emitted entity. -/
theorem C7_fields_escaped (pub : Pub) :
    format_li pub = liTemplate pub (escape pub.title) (escape pub.author)
        (escape pub.extra) (escape pub.url) ∧
      noLtGtQuot (escape pub.title) = true ∧ ampEntityOk (escape pub.title) = true ∧
      noLtGtQuot (escape pub.author) = true ∧ ampEntityOk (escape pub.author) = true ∧
      noLtGtQuot (escape pub.extra) = true ∧ ampEntityOk (escape pub.extra) = true :=
  ⟨format_li_eq_template pub, noLtGtQuot_escape _, ampOk_escape _,
    noLtGtQuot_escape _, ampOk_escape _, noLtGtQuot_escape _, ampOk_escape _⟩

/-- C8: evaluating `format_li` on a record with author and extra shows the
author clause is separated from the title by the three characters
`U+00E2 U+20AC U+201D` (a mis-encoded em dash) and an em dash (U+2014) never
appears — the code diverges here from the em-dash rendering the claim
describes, while the period termination and single-space joining hold. -/
theorem C8_mojibake_dash :
    format_li pubDemo
      = "<strong>T</strong> ".toList ++ emDashMojibake ++ " A, B. <em>E</em>.".toList ∧
    emDashMojibake ≠ [Char.ofNat 8212] ∧
    containsSub (format_li pubDemo) [Char.ofNat 8212] = false := by decide

/-- C9, amended: a missing positional argument yields exit status 1 with the
usage message on stderr; with an argument present, any bibliography content
runs to exit status 0 provided no record's year is digit-class with a
non-decimal digit (such a year, e.g. `²`, makes `int` raise inside the sort
key and the process dies with a non-zero status instead). -/
theorem C9_exit_behavior :
    (∀ bib, runMain [] bib = (1, [], usageMsg)) ∧
    (∀ (args : List Str) (bib : Str), args ≠ [] →
      (∀ p ∈ pubsOf bib, (sort_key p).isSome) → (runMain args bib).1 = 0) := by
  constructor
  · intro bib
    rfl
  · intro args bib hargs hsafe
    obtain ⟨out, hout⟩ := pipeline_some_of_safe bib hsafe
    cases args with
    | nil => exact absurd rfl hargs
    | cons a as => simp [runMain, hout]

/-- C9, counterexample: a readable file whose second entry's year is `²` is
malformed-but-readable content on which the program exits with status 1 (the
sort key's `int` raises), refuting "never exits with a non-zero status". -/
theorem C9_counterexample :
    (runMain ["publications.bib".toList] crashBib).1 = 1 ∧
    pipeline? crashBib = none := by decide

/-- C9, witness: the amended theorem applied with no argument, and with an
argument on a malformed (unclosed-brace) bibliography. -/
theorem C9_witness :
    runMain [] malformedBib = (1, [], usageMsg) ∧
    (runMain ["b".toList] malformedBib).1 = 0 :=
  ⟨C9_exit_behavior.1 malformedBib,
    C9_exit_behavior.2 ["b".toList] malformedBib (by simp) (by decide)⟩

/-- C10: when no line's stripped content starts with `@`, the program writes
nothing at all to standard output (and exits cleanly). -/
theorem C10_no_output (args : List Str) (bib : Str) (hargs : args ≠ [])
    (h : ∀ line ∈ pySplitlines bib, pyStartswith (pyStrip line) ['@'] = false) :
    runMain args bib = (0, [], []) := by
  have hsplit : split_entries bib = [] := by
    unfold split_entries
    rw [foldl_splitStep_nil _ h]
    rfl
  have hpubs : pubsOf bib = [] := by
    simp [pubsOf, hsplit]
  cases args with
  | nil => exact absurd rfl hargs
  | cons a as =>
    have hpipe : pipeline? bib = some [] := by
      unfold pipeline? sortedPubsOf
      rw [hpubs]
      rfl
    simp [runMain, hpipe]

/-- C10, witness: the theorem applied to text with no `@`-line. -/
theorem C10_witness : runMain ["b".toList] noEntryBib = (0, [], []) :=
  C10_no_output ["b".toList] noEntryBib (by simp) (by decide)

end GenPubs
